import Mathlib

/-!
Addons template merge (`internal/pkg/addon/addons.go`).

A shallow embedding of `filterYAMLfiles`, `contains` and `Addons.Template`.

* Go strings are modelled by `String`; `[]byte` by `Bytes` (also `String`, so that the
  conversion `string(out)` is the identity).
* `filepath.Ext` (Go standard library) is transcribed from its loop.
* The workspace reader is an interface: its two methods are modelled as state-passing
  functions over an arbitrary state type `σ`.  `yaml.Unmarshal`, `cfnTemplate.merge` and
  `yaml.Marshal` are functions of their arguments.
* Every call that `Template` makes to one of these collaborators is logged, in order, in
  a trace of `Event`s.
-/

namespace Addon

/-! ## Go standard library: `os.IsPathSeparator`, `filepath.Ext` -/

/-- Go `os.IsPathSeparator`: the slash everywhere, and also the backslash on Windows. -/
def isPathSeparator (windows : Bool) (c : Char) : Bool :=
  c == '/' || (windows && c == '\\')

/-- The loop of `filepath.Ext`:
`for i := len(path) - 1; i >= 0 && !os.IsPathSeparator(path[i]); i-- { if path[i] == '.' { return path[i:] } }; return ""`.
The argument `n` is `i + 1`. -/
def extLoop (windows : Bool) (path : List Char) : Nat → List Char
  | 0 => []
  | i + 1 =>
    match path.get? i with
    | none => []
    | some c =>
      if isPathSeparator windows c then []
      else if c = '.' then path.drop i
      else extLoop windows path i

/-- Go `filepath.Ext(path)`: the suffix beginning at the final dot in the final element of `path`. -/
def filepathExt (windows : Bool) (path : String) : String :=
  String.mk (extLoop windows path.data path.data.length)

/-! ## `addons.go`: `contains`, `filterYAMLfiles` -/

/-- The function `contains(arr, el)`: whether some item of `arr` equals `el`. -/
def contains (arr : List String) (el : String) : Bool :=
  match arr with
  | [] => false
  | item :: rest => if item = el then true else contains rest el

/-- The function `filterYAMLfiles(files)`: the loop appends `f` to `yamlFiles` unless
`!contains(yamlExtensions, filepath.Ext(f))`. -/
def filterYAMLfiles (windows : Bool) (files : List String) : List String :=
  let yamlExtensions := [".yaml", ".yml"]
  files.foldl
    (fun yamlFiles f =>
      if !contains yamlExtensions (filepathExt windows f) then yamlFiles
      else yamlFiles ++ [f])
    []

/-- The name `f` ends in `.yaml` or in `.yml` (case-sensitive suffix test). -/
def endsInYAML (f : String) : Bool :=
  decide (".yaml".data <:+ f.data) || decide (".yml".data <:+ f.data)

/-! ## The document type -/

/-- A generic tagged value: scalar, sequence or mapping. -/
inductive Value where
  | scalar (s : String)
  | sequence (xs : List Value)
  | mapping (kvs : List (String × Value))

/-- The sections of a template. -/
inductive cfnSection where
  | Parameters
  | Mappings
  | Conditions
  | Resources
  | Outputs
  | Metadata
  deriving DecidableEq, Repr

/-- Modelled from the spec: the type `cfnTemplate` is declared outside `addons.go`.
A structured document has a diagnostic `name` and a fixed set of sections, each an
ordered mapping from key to value. -/
structure cfnTemplate where
  name : String
  Parameters : List (String × Value)
  Mappings : List (String × Value)
  Conditions : List (String × Value)
  Resources : List (String × Value)
  Outputs : List (String × Value)
  Metadata : List (String × Value)

/-- Modelled from the spec: `newCFNTemplate` is defined outside `addons.go`.
A fresh document carries the given name and all its sections are empty. -/
def newCFNTemplate (name : String) : cfnTemplate :=
  { name := name, Parameters := [], Mappings := [], Conditions := [], Resources := [],
    Outputs := [], Metadata := [] }

/-- The content of one section of a document. -/
def cfnTemplate.get (t : cfnTemplate) : cfnSection → List (String × Value)
  | .Parameters => t.Parameters
  | .Mappings => t.Mappings
  | .Conditions => t.Conditions
  | .Resources => t.Resources
  | .Outputs => t.Outputs
  | .Metadata => t.Metadata

/-- The keys of a section, in order. -/
def keys (kvs : List (String × Value)) : List String := kvs.map Prod.fst

/-! ## `Addons.Template` -/

/-- Go byte slices (`[]byte`). -/
abbrev Bytes := String

/-- The collaborators of `Addons`: the `workspaceReader` interface (`ws`), `yaml.Unmarshal`,
`cfnTemplate.merge`, `yaml.Marshal`, and the `Error()` method of the error values they
return.  `windows` selects the path separators of the target platform. -/
structure Collaborators (σ E : Type) where
  ReadAddonsDir : String → σ → Except E (List String) × σ
  ReadAddon : String → String → σ → Except E Bytes × σ
  Unmarshal : Bytes → cfnTemplate → Except E cfnTemplate
  merge : cfnTemplate → cfnTemplate → Except E cfnTemplate
  Marshal : cfnTemplate → Except E Bytes
  Error : E → String
  windows : Bool

/-- The error values `Template` returns.
* `ErrAddonsDirNotExist`: `&ErrAddonsDirNotExist{WlName: ..., ParentErr: ...}`;
* `wrapError msg err`: the result of `fmt.Errorf("...: %w", ..., err)`, with message `msg`
  and `Unwrap() = err`;
* `passed err`: the collaborator's error value `err`, returned as it is.  The error values
  of the collaborators (type `E`) are taken to be of other dynamic types than
  `*ErrAddonsDirNotExist` and `*fmt.wrapError`. -/
inductive TemplateError (E : Type) where
  | ErrAddonsDirNotExist (WlName : String) (ParentErr : E)
  | wrapError (msg : String) (err : E)
  | passed (err : E)
  deriving DecidableEq, Repr

/-- One call to a collaborator. `Unmarshal f` is the call `yaml.Unmarshal(out, tpl)` of the
iteration for `f`, and `merge f` the call `mergedTemplate.merge(tpl)` of that iteration. -/
inductive Event where
  | ReadAddonsDir (svcName : String)
  | ReadAddon (svcName fileName : String)
  | Unmarshal (fileName : String)
  | merge (fileName : String)
  | Marshal
  deriving DecidableEq, Repr

/-- What a call of `Template` yields: the two returned values, the reader's final state, and
the calls made. -/
structure Outcome (σ E : Type) where
  out : String
  err : Option (TemplateError E)
  state : σ
  trace : List Event

/-- The state of the `for` loop of `Template`: either a `return` was executed, or the loop
ran to its end. -/
inductive LoopResult (σ E : Type) where
  | returned (o : Outcome σ E)
  | finished (mergedTemplate : cfnTemplate) (state : σ) (trace : List Event)

/-- The loop `for _, fname := range filterYAMLfiles(fnames) { ... }` of `Template`. -/
def templateLoop {σ E : Type} (a : Collaborators σ E) (wlName : String) :
    List String → cfnTemplate → σ → List Event → LoopResult σ E
  | [], mergedTemplate, s, tr => .finished mergedTemplate s tr
  | fname :: rest, mergedTemplate, s, tr =>
    match a.ReadAddon wlName fname s with
    | (.error err, s1) =>
      .returned
        { out := ""
          err := some (.wrapError
            ("read addon " ++ fname ++ " under " ++ wlName ++ ": " ++ a.Error err) err)
          state := s1
          trace := tr ++ [.ReadAddon wlName fname] }
    | (.ok out, s1) =>
      match a.Unmarshal out (newCFNTemplate fname) with
      | .error err =>
        .returned
          { out := ""
            err := some (.wrapError
              ("unmarshal addon " ++ fname ++ " under " ++ wlName ++ ": " ++ a.Error err) err)
            state := s1
            trace := tr ++ [.ReadAddon wlName fname, .Unmarshal fname] }
      | .ok tpl =>
        match a.merge mergedTemplate tpl with
        | .error err =>
          .returned
            { out := ""
              err := some (.passed err)
              state := s1
              trace := tr ++ [.ReadAddon wlName fname, .Unmarshal fname, .merge fname] }
        | .ok merged1 =>
          templateLoop a wlName rest merged1 s1
            (tr ++ [.ReadAddon wlName fname, .Unmarshal fname, .merge fname])

/-- The statements of `Template` after the loop: nothing more when a `return` was executed
inside the loop, else `yaml.Marshal(mergedTemplate)` and the final `return`s. -/
def afterLoop {σ E : Type} (a : Collaborators σ E) : LoopResult σ E → Outcome σ E
  | .returned o => o
  | .finished mergedTemplate s2 tr =>
    match a.Marshal mergedTemplate with
    | .error err =>
      { out := ""
        err := some (.wrapError ("marshal merged addons template: " ++ a.Error err) err)
        state := s2
        trace := tr ++ [.Marshal] }
    | .ok out =>
      { out := out
        err := none
        state := s2
        trace := tr ++ [.Marshal] }

/-- The method `func (a *Addons) Template() (string, error)`, for the workload name `wlName`. -/
def Template {σ E : Type} (a : Collaborators σ E) (wlName : String) (s : σ) : Outcome σ E :=
  match a.ReadAddonsDir wlName s with
  | (.error err, s1) =>
    { out := ""
      err := some (.ErrAddonsDirNotExist wlName err)
      state := s1
      trace := [.ReadAddonsDir wlName] }
  | (.ok fnames, s1) =>
    afterLoop a
      (templateLoop a wlName (filterYAMLfiles a.windows fnames) (newCFNTemplate "merged") s1
        [.ReadAddonsDir wlName])

/-! ## Reference definitions used to state the properties of `Template` -/

/-- The trace of a loop result. -/
def LoopResult.trace {σ E : Type} : LoopResult σ E → List Event
  | .returned o => o.trace
  | .finished _ _ tr => tr

/-- The calls of one complete loop iteration, the one for `fname`. -/
def iterationEvents (wlName fname : String) : List Event :=
  [.ReadAddon wlName fname, .Unmarshal fname, .merge fname]

/-- The file names of the `ReadAddon` calls of a trace, in order. -/
def readNames : List Event → List String
  | [] => []
  | .ReadAddon _ f :: es => f :: readNames es
  | _ :: es => readNames es

/-- The file names of the `merge` calls of a trace, in order. -/
def mergeNames : List Event → List String
  | [] => []
  | .merge f :: es => f :: mergeNames es
  | _ :: es => mergeNames es

/-- Reading the fragments `fnames` one after the other, starting in state `s`: the bytes
of each when every `ReadAddon` succeeds, with the reader's state after the last call. -/
def readAll {σ E : Type} (a : Collaborators σ E) (wlName : String) :
    List String → σ → Option (List Bytes) × σ
  | [], s => (some [], s)
  | f :: fs, s =>
    match a.ReadAddon wlName f s with
    | (.error _, s1) => (none, s1)
    | (.ok out, s1) =>
      match readAll a wlName fs s1 with
      | (none, s2) => (none, s2)
      | (some outs, s2) => (some (out :: outs), s2)

/-- Parsing the bytes of each fragment into a document created by `newCFNTemplate` with the
fragment's file name: the documents when every `Unmarshal` succeeds. -/
def parseAll {σ E : Type} (a : Collaborators σ E) : List String → List Bytes → Option (List cfnTemplate)
  | [], [] => some []
  | f :: fs, out :: outs =>
    match a.Unmarshal out (newCFNTemplate f) with
    | .error _ => none
    | .ok tpl =>
      match parseAll a fs outs with
      | none => none
      | some tpls => some (tpl :: tpls)
  | _, _ => none

/-- The left fold of `merge` over a list of documents, stopping at the first error. -/
def foldMerge {σ E : Type} (a : Collaborators σ E) : cfnTemplate → List cfnTemplate → Except E cfnTemplate
  | acc, [] => .ok acc
  | acc, d :: ds =>
    match a.merge acc d with
    | .error e => .error e
    | .ok acc1 => foldMerge a acc1 ds

/-! ## The merge step, from the specification -/

/-- A collision: the section, the key, and the fragment that introduced the duplicate. -/
structure Collision where
  sectionName : cfnSection
  key : String
  fragment : String
  deriving DecidableEq, Repr

/-- Union with collision check of one section: every key of the incoming section, in order,
is inserted after the keys already there if it is absent, and is a collision if present. -/
def mergeSection (sec : cfnSection) (fragment : String) :
    List (String × Value) → List (String × Value) → Except Collision (List (String × Value))
  | acc, [] => .ok acc
  | acc, (k, v) :: rest =>
    if k ∈ keys acc then .error { sectionName := sec, key := k, fragment := fragment }
    else mergeSection sec fragment (acc ++ [(k, v)]) rest

/-- Modelled from the spec: the method `merge` of `cfnTemplate` is defined outside
`addons.go`.  Each section of the incoming fragment `other` is merged into the accumulator's
section by union with collision check (Parameters, Mappings, Conditions, Resources, Outputs,
then the passthrough keys); the first collision aborts the merge and reports the section, the
key and the name of the fragment that introduced the duplicate. -/
def specMerge (acc other : cfnTemplate) : Except Collision cfnTemplate :=
  match mergeSection .Parameters other.name acc.Parameters other.Parameters with
  | .error c => .error c
  | .ok parameters =>
  match mergeSection .Mappings other.name acc.Mappings other.Mappings with
  | .error c => .error c
  | .ok mappings =>
  match mergeSection .Conditions other.name acc.Conditions other.Conditions with
  | .error c => .error c
  | .ok conditions =>
  match mergeSection .Resources other.name acc.Resources other.Resources with
  | .error c => .error c
  | .ok resources =>
  match mergeSection .Outputs other.name acc.Outputs other.Outputs with
  | .error c => .error c
  | .ok outputs =>
  match mergeSection .Metadata other.name acc.Metadata other.Metadata with
  | .error c => .error c
  | .ok metadata =>
    .ok { name := acc.name, Parameters := parameters, Mappings := mappings,
          Conditions := conditions, Resources := resources, Outputs := outputs,
          Metadata := metadata }

/-- The merge step of the specification as a collaborator's `merge`, the collision being
turned into an error value by `collisionError`. -/
def mergeOfSpec {E : Type} (collisionError : Collision → E) (acc other : cfnTemplate) :
    Except E cfnTemplate :=
  match specMerge acc other with
  | .error c => .error (collisionError c)
  | .ok acc1 => .ok acc1

/-! ## Example collaborators -/

/-- Error values of the example collaborators. -/
inductive DemoError where
  | notExist (path : String)
  | badYAML
  | collision (c : Collision)
  | cannotMarshal
  deriving DecidableEq, Repr

/-- An example workspace: the listing of the addons directory (`none` when the directory
does not exist), the content of each file, and whether the serializer works. -/
structure DemoWorld where
  dir : Option (List String)
  files : List (String × String)
  canMarshal : Bool

/-- Example collaborators over a `DemoWorld`.  The reader's state counts its calls.  A file's
content is parsed one character per resource key, and `!` is malformed content.  The merge
step is the specification's.  The serializer renders the resource keys. -/
def demo (w : DemoWorld) : Collaborators Nat DemoError where
  ReadAddonsDir := fun wl n =>
    match w.dir with
    | none => (.error (.notExist ("copilot/" ++ wl ++ "/addons")), n + 1)
    | some listing => (.ok listing, n + 1)
  ReadAddon := fun _ f n =>
    match w.files.lookup f with
    | none => (.error (.notExist f), n + 1)
    | some content => (.ok content, n + 1)
  Unmarshal := fun out tpl =>
    if '!' ∈ out.data then .error .badYAML
    else .ok { tpl with
      Resources := tpl.Resources ++ out.data.map (fun ch => (String.singleton ch, Value.scalar "x")) }
  merge := mergeOfSpec DemoError.collision
  Marshal := fun t =>
    if w.canMarshal then .ok ("Resources: " ++ String.intercalate "," (keys t.Resources))
    else .error .cannotMarshal
  Error := fun e =>
    match e with
    | .notExist p => "open " ++ p ++ ": no such file or directory"
    | .badYAML => "yaml: malformed"
    | .collision c => "key " ++ c.key ++ " already exists in " ++ c.fragment
    | .cannotMarshal => "yaml: cannot marshal"
  windows := false

/-- Ascending lexical order of file names (Go compares strings byte by byte). -/
abbrev ascending (l : List String) : Prop :=
  List.Sorted (fun x y => x.data ≤ y.data) l

/-- Two fragments with different resources, listed as `b.yaml`, `a.yaml`. -/
def worldTwo : DemoWorld :=
  { dir := some ["b.yaml", "a.yaml"]
    files := [("a.yaml", "B"), ("b.yaml", "Q")]
    canMarshal := true }

/-- The same two fragments, listed as `a.yaml`, `b.yaml`. -/
def worldTwoSorted : DemoWorld :=
  { dir := some ["a.yaml", "b.yaml"]
    files := [("a.yaml", "B"), ("b.yaml", "Q")]
    canMarshal := true }

/-- Two fragments next to files of other kinds. -/
def worldMixed : DemoWorld :=
  { dir := some ["b.yml", "notes.txt", "a.yaml", "a.json"]
    files := [("a.yaml", "B"), ("b.yml", "Q"), ("notes.txt", "N"), ("a.json", "J")]
    canMarshal := true }

/-- A workload without addons directory. -/
def worldNoDir : DemoWorld :=
  { dir := none, files := [], canMarshal := true }

/-- An addons directory without any fragment. -/
def worldNoYAML : DemoWorld :=
  { dir := some ["notes.txt", "a.json", "a.YAML"]
    files := [("notes.txt", "N"), ("a.json", "J"), ("a.YAML", "Y")]
    canMarshal := true }

/-- The listed fragment `b.yaml` cannot be read. -/
def worldMissing : DemoWorld :=
  { dir := some ["a.yaml", "b.yaml", "c.yaml"]
    files := [("a.yaml", "B"), ("c.yaml", "Q")]
    canMarshal := true }

/-- The fragment `b.yaml` is malformed. -/
def worldMalformed : DemoWorld :=
  { dir := some ["a.yaml", "b.yaml", "c.yaml"]
    files := [("a.yaml", "B"), ("b.yaml", "!"), ("c.yaml", "Q")]
    canMarshal := true }

/-- The fragments `a.yaml` and `b.yaml` both declare the resource `B`. -/
def worldClash : DemoWorld :=
  { dir := some ["a.yaml", "b.yaml", "c.yaml"]
    files := [("a.yaml", "B"), ("b.yaml", "B"), ("c.yaml", "Q")]
    canMarshal := true }

/-- As `worldClash`, with `b.yaml` listed before `a.yaml`. -/
def worldClashSwapped : DemoWorld :=
  { dir := some ["b.yaml", "a.yaml", "c.yaml"]
    files := [("a.yaml", "B"), ("b.yaml", "B"), ("c.yaml", "Q")]
    canMarshal := true }

/-- The fragments `a.yaml` and `b.yaml` both declare the resources `X` and `Y`. -/
def worldClashTwice : DemoWorld :=
  { dir := some ["a.yaml", "b.yaml"]
    files := [("a.yaml", "XY"), ("b.yaml", "XY")]
    canMarshal := true }

/-- The fragments `b.yaml` and `c.yaml` both declare the resource `B`, and the fragment
`a.yaml`, listed before them, cannot be read. -/
def worldClashUnread : DemoWorld :=
  { dir := some ["a.yaml", "b.yaml", "c.yaml"]
    files := [("b.yaml", "B"), ("c.yaml", "B")]
    canMarshal := true }

/-- One fragment, and a serializer that fails. -/
def worldNoMarshal : DemoWorld :=
  { dir := some ["a.yaml"]
    files := [("a.yaml", "B")]
    canMarshal := false }
/-! ## Lemmas on `filepath.Ext` and `filterYAMLfiles` -/

theorem extLoop_suffix (windows : Bool) (path : List Char) (n : Nat) :
    extLoop windows path n <:+ path := by
  induction n with
  | zero => simp [extLoop]
  | succ i ih =>
    unfold extLoop
    split
    · exact List.nil_suffix
    · split
      · exact List.nil_suffix
      · split
        · exact List.drop_suffix _ _
        · exact ih

theorem extLoop_dot (windows : Bool) (pre suf : List Char)
    (hsuf : ∀ c ∈ suf, isPathSeparator windows c = false ∧ c ≠ '.') (k : Nat) (hk : k ≤ suf.length) :
    extLoop windows (pre ++ '.' :: suf) (pre.length + 1 + k) = '.' :: suf := by
  induction k with
  | zero =>
    have h1 : (pre ++ '.' :: suf).get? pre.length = some '.' := by
      rw [List.get?_eq_getElem?, List.getElem?_append_right (Nat.le_refl _)]
      simp
    have h2 : isPathSeparator windows '.' = false := by
      cases windows <;> decide
    simp only [Nat.add_zero, extLoop, h1, h2]
    simp
  | succ k ih =>
    have hk2 : k < suf.length := hk
    have h1 : (pre ++ '.' :: suf).get? (pre.length + 1 + k) = some (suf.get ⟨k, hk2⟩) := by
      have : pre.length + 1 + k = pre.length + (k + 1) := by omega
      rw [this]
      simp [List.getElem?_append_right, List.getElem?_eq_getElem hk2]
    have hmem := hsuf (suf.get ⟨k, hk2⟩) (List.get_mem _ _ _)
    have e : pre.length + 1 + (k + 1) = (pre.length + 1 + k) + 1 := by omega
    rw [e, extLoop, h1]
    simp only [hmem.1, hmem.2, if_false, Bool.false_eq_true]
    exact ih (Nat.le_of_lt hk2)

theorem filepathExt_of_suffix (windows : Bool) (path : String) (suf : List Char)
    (hsuf : ∀ c ∈ suf, isPathSeparator windows c = false ∧ c ≠ '.')
    (h : ('.' :: suf) <:+ path.data) : filepathExt windows path = String.mk ('.' :: suf) := by
  obtain ⟨pre, hpre⟩ := h
  unfold filepathExt
  rw [← hpre]
  have e : (pre ++ '.' :: suf).length = pre.length + 1 + suf.length := by
    simp; omega
  rw [e, extLoop_dot windows pre suf hsuf suf.length (Nat.le_refl _)]

theorem suffix_of_filepathExt (windows : Bool) (path : String) (x : List Char)
    (h : filepathExt windows path = String.mk x) : x <:+ path.data := by
  unfold filepathExt at h
  have h2 : extLoop windows path.data path.data.length = x := by
    injection h
  rw [← h2]
  exact extLoop_suffix _ _ _

theorem yaml_chars (windows : Bool) :
    ∀ c ∈ "yaml".data, isPathSeparator windows c = false ∧ c ≠ '.' := by
  cases windows <;> decide

theorem yml_chars (windows : Bool) :
    ∀ c ∈ "yml".data, isPathSeparator windows c = false ∧ c ≠ '.' := by
  cases windows <;> decide

theorem contains_ext_eq (windows : Bool) (f : String) :
    contains [".yaml", ".yml"] (filepathExt windows f) = endsInYAML f := by
  unfold endsInYAML
  by_cases h1 : ".yaml".data <:+ f.data
  · have := filepathExt_of_suffix windows f "yaml".data (yaml_chars windows) h1
    rw [this]
    simp [h1, contains]
  · by_cases h2 : ".yml".data <:+ f.data
    · have := filepathExt_of_suffix windows f "yml".data (yml_chars windows) h2
      rw [this]
      simp [h2, contains]
    · have n1 : ¬ (".yaml" = filepathExt windows f) := by
        intro h
        exact h1 (suffix_of_filepathExt windows f ".yaml".data h.symm)
      have n2 : ¬ (".yml" = filepathExt windows f) := by
        intro h
        exact h2 (suffix_of_filepathExt windows f ".yml".data h.symm)
      simp [h1, h2, contains, n1, n2]

theorem filter_foldl (windows : Bool) (files acc : List String) :
    files.foldl
      (fun yamlFiles f =>
        if !contains [".yaml", ".yml"] (filepathExt windows f) then yamlFiles
        else yamlFiles ++ [f])
      acc = acc ++ files.filter endsInYAML := by
  induction files generalizing acc with
  | nil => simp
  | cons f fs ih =>
    rw [List.foldl_cons, ih, contains_ext_eq]
    cases h : endsInYAML f <;> simp [List.filter_cons, h]

theorem filterYAMLfiles_eq_filter (windows : Bool) (files : List String) :
    filterYAMLfiles windows files = files.filter endsInYAML := by
  unfold filterYAMLfiles
  simpa using filter_foldl windows files []

/-- C1: `filterYAMLfiles` returns exactly the names of the input that end in `.yaml` or
`.yml` (case-sensitive), each with its multiplicity and in the input's relative order; names
such as `a.YAML`, `a.Yml`, `a.json`, `a.txt` and `a.yaml.bak` are never in the result. -/
theorem filterYAMLfiles_exact (windows : Bool) (files : List String) :
    filterYAMLfiles windows files
        = files.filter (fun f => decide (".yaml".data <:+ f.data ∨ ".yml".data <:+ f.data))
      ∧ (∀ f, f ∈ filterYAMLfiles windows files ↔
          f ∈ files ∧ (".yaml".data <:+ f.data ∨ ".yml".data <:+ f.data))
      ∧ (∀ f, (filterYAMLfiles windows files).count f
          = if ".yaml".data <:+ f.data ∨ ".yml".data <:+ f.data then files.count f else 0)
      ∧ List.Sublist (filterYAMLfiles windows files) files
      ∧ (∀ f ∈ ["a.YAML", "a.Yml", "a.json", "a.txt", "a.yaml.bak"],
          f ∉ filterYAMLfiles windows files) := by
  have e : filterYAMLfiles windows files
      = files.filter (fun f => decide (".yaml".data <:+ f.data ∨ ".yml".data <:+ f.data)) := by
    rw [filterYAMLfiles_eq_filter]
    congr 1
    funext f
    simp [endsInYAML]
  refine ⟨e, ?_, ?_, ?_, ?_⟩
  · intro f
    rw [e]
    simp
  · intro f
    rw [e]
    by_cases h : ".yaml".data <:+ f.data ∨ ".yml".data <:+ f.data
    · rw [if_pos h]
      exact List.count_filter (by simpa using h)
    · rw [if_neg h]
      apply List.count_eq_zero.mpr
      simp only [List.mem_filter, not_and]
      intro _
      simpa using h
  · rw [e]
    exact List.filter_sublist _
  · intro f hf
    have key : ∀ g ∈ ["a.YAML", "a.Yml", "a.json", "a.txt", "a.yaml.bak"],
        ¬ (".yaml".data <:+ g.data ∨ ".yml".data <:+ g.data) := by decide
    rw [e]
    simp only [List.mem_filter, not_and]
    intro _
    simpa using key f hf

/-! ## Lemmas on the loop of `Template` -/

theorem templateLoop_returned {σ E : Type} (a : Collaborators σ E) (wlName : String)
    (fs : List String) (acc : cfnTemplate) (s : σ) (tr : List Event) (o : Outcome σ E)
    (h : templateLoop a wlName fs acc s tr = .returned o) :
    o.out = "" ∧ (∀ w p, o.err ≠ some (.ErrAddonsDirNotExist w p)) ∧ o.err ≠ none := by
  induction fs generalizing acc s tr with
  | nil => simp [templateLoop] at h
  | cons f fs ih =>
    unfold templateLoop at h
    split at h
    · injection h with h
      subst h
      simp
    · split at h
      · injection h with h
        subst h
        simp
      · split at h
        · injection h with h
          subst h
          simp
        · exact ih _ _ _ h

theorem templateLoop_append {σ E : Type} (a : Collaborators σ E) (wlName : String)
    (pre rest : List String) (acc acc1 : cfnTemplate) (s s1 : σ) (tr : List Event)
    (outs : List Bytes) (docs : List cfnTemplate)
    (hread : readAll a wlName pre s = (some outs, s1))
    (hparse : parseAll a pre outs = some docs)
    (hmerge : foldMerge a acc docs = .ok acc1) :
    templateLoop a wlName (pre ++ rest) acc s tr
      = templateLoop a wlName rest acc1 s1 (tr ++ pre.flatMap (iterationEvents wlName)) := by
  induction pre generalizing acc s tr outs docs with
  | nil =>
    simp only [readAll, Prod.mk.injEq, Option.some.injEq] at hread
    obtain ⟨h1, h2⟩ := hread
    subst h1 h2
    simp only [parseAll, Option.some.injEq] at hparse
    subst hparse
    simp only [foldMerge, Except.ok.injEq] at hmerge
    subst hmerge
    simp
  | cons f fs ih =>
    unfold readAll at hread
    rw [List.cons_append]
    conv_lhs => unfold templateLoop
    cases hr : a.ReadAddon wlName f s with
    | mk r s2 =>
      rw [hr] at hread
      cases r with
      | error e => simp at hread
      | ok out =>
        simp only at hread
        cases hra : readAll a wlName fs s2 with
        | mk ro s3 =>
          rw [hra] at hread
          cases ro with
          | none => simp at hread
          | some outs1 =>
            simp only [Prod.mk.injEq, Option.some.injEq] at hread
            obtain ⟨h1, h2⟩ := hread
            subst h1 h2
            unfold parseAll at hparse
            cases hu : a.Unmarshal out (newCFNTemplate f) with
            | error e => simp [hu] at hparse
            | ok tpl =>
              simp only [hu] at hparse
              cases hpa : parseAll a fs outs1 with
              | none => simp [hpa] at hparse
              | some tpls =>
                simp only [hpa, Option.some.injEq] at hparse
                subst hparse
                unfold foldMerge at hmerge
                cases hm : a.merge acc tpl with
                | error e => simp [hm] at hmerge
                | ok acc2 =>
                  simp only [hm] at hmerge
                  simp only [hu, hm]
                  rw [ih acc2 s2 _ outs1 tpls hra hpa hmerge]
                  simp [iterationEvents, List.append_assoc]

theorem readNames_append (x y : List Event) :
    readNames (x ++ y) = readNames x ++ readNames y := by
  induction x with
  | nil => rfl
  | cons e es ih => cases e <;> simp [readNames, ih]

theorem mergeNames_append (x y : List Event) :
    mergeNames (x ++ y) = mergeNames x ++ mergeNames y := by
  induction x with
  | nil => rfl
  | cons e es ih => cases e <;> simp [mergeNames, ih]

theorem readNames_iterations (wlName : String) (fs : List String) :
    readNames (fs.flatMap (iterationEvents wlName)) = fs := by
  induction fs with
  | nil => rfl
  | cons f fs ih =>
    rw [List.flatMap_cons, readNames_append, ih]
    simp [iterationEvents, readNames]

theorem mergeNames_iterations (wlName : String) (fs : List String) :
    mergeNames (fs.flatMap (iterationEvents wlName)) = fs := by
  induction fs with
  | nil => rfl
  | cons f fs ih =>
    rw [List.flatMap_cons, mergeNames_append, ih]
    simp [iterationEvents, mergeNames]

theorem templateLoop_names {σ E : Type} (a : Collaborators σ E) (wlName : String)
    (fs : List String) (acc : cfnTemplate) (s : σ) (tr : List Event) :
    (∃ p, p <+: fs ∧
        readNames (templateLoop a wlName fs acc s tr).trace = readNames tr ++ p)
      ∧ (∃ q, q <+: fs ∧
        mergeNames (templateLoop a wlName fs acc s tr).trace = mergeNames tr ++ q)
      ∧ (∀ m s1 tr1, templateLoop a wlName fs acc s tr = .finished m s1 tr1 →
          readNames tr1 = readNames tr ++ fs ∧ mergeNames tr1 = mergeNames tr ++ fs) := by
  induction fs generalizing acc s tr with
  | nil =>
    refine ⟨⟨[], List.prefix_refl _, by simp [templateLoop, LoopResult.trace]⟩,
      ⟨[], List.prefix_refl _, by simp [templateLoop, LoopResult.trace]⟩, ?_⟩
    intro m s1 tr1 h
    simp only [templateLoop, LoopResult.finished.injEq] at h
    obtain ⟨_, _, h3⟩ := h
    subst h3
    simp
  | cons f fs ih =>
    unfold templateLoop
    split
    · refine ⟨⟨[f], by simp, by simp [LoopResult.trace, readNames_append, readNames]⟩,
        ⟨[], List.nil_prefix, by simp [LoopResult.trace, mergeNames_append, mergeNames]⟩, ?_⟩
      intro m s1 tr1 h
      simp at h
    · split
      · refine ⟨⟨[f], by simp, by simp [LoopResult.trace, readNames_append, readNames]⟩,
          ⟨[], List.nil_prefix, by simp [LoopResult.trace, mergeNames_append, mergeNames]⟩, ?_⟩
        intro m s1 tr1 h
        simp at h
      · split
        · refine ⟨⟨[f], by simp, by simp [LoopResult.trace, readNames_append, readNames]⟩,
            ⟨[f], by simp, by simp [LoopResult.trace, mergeNames_append, mergeNames]⟩, ?_⟩
          intro m s1 tr1 h
          simp at h
        · rename_i s2 _ _ _ _ _ merged1 _
          obtain ⟨⟨p, hp, hp2⟩, ⟨q, hq, hq2⟩, hfin⟩ :=
            ih merged1 s2 (tr ++ [.ReadAddon wlName f, .Unmarshal f, .merge f])
          refine ⟨⟨f :: p, ?_, ?_⟩, ⟨f :: q, ?_, ?_⟩, ?_⟩
          · exact List.prefix_cons_inj f |>.mpr hp
          · rw [hp2]
            simp [readNames_append, readNames]
          · exact List.prefix_cons_inj f |>.mpr hq
          · rw [hq2]
            simp [mergeNames_append, mergeNames]
          · intro m s1 tr1 h
            obtain ⟨h1, h2⟩ := hfin m s1 tr1 h
            rw [h1, h2]
            simp [readNames_append, readNames, mergeNames_append, mergeNames]

/-! ## `Template` after the directory listing -/

theorem afterLoop_error {σ E : Type} (a : Collaborators σ E) (m : cfnTemplate) (s : σ)
    (tr : List Event) (e : E) (h : a.Marshal m = .error e) :
    afterLoop a (.finished m s tr)
      = { out := ""
          err := some (.wrapError ("marshal merged addons template: " ++ a.Error e) e)
          state := s
          trace := tr ++ [.Marshal] } := by
  simp only [afterLoop, h]

theorem afterLoop_ok {σ E : Type} (a : Collaborators σ E) (m : cfnTemplate) (s : σ)
    (tr : List Event) (text : Bytes) (h : a.Marshal m = .ok text) :
    afterLoop a (.finished m s tr)
      = { out := text, err := none, state := s, trace := tr ++ [.Marshal] } := by
  simp only [afterLoop, h]

theorem Template_of_dir_ok {σ E : Type} (a : Collaborators σ E) (wlName : String) (s s1 : σ)
    (listing : List String) (hdir : a.ReadAddonsDir wlName s = (.ok listing, s1)) :
    Template a wlName s =
      afterLoop a
        (templateLoop a wlName (filterYAMLfiles a.windows listing) (newCFNTemplate "merged")
          s1 [.ReadAddonsDir wlName]) := by
  unfold Template
  rw [hdir]

theorem Template_of_dir_error {σ E : Type} (a : Collaborators σ E) (wlName : String) (s s1 : σ)
    (e : E) (hdir : a.ReadAddonsDir wlName s = (.error e, s1)) :
    Template a wlName s =
      { out := ""
        err := some (.ErrAddonsDirNotExist wlName e)
        state := s1
        trace := [.ReadAddonsDir wlName] } := by
  unfold Template
  rw [hdir]

/-! ## The claims on `Template` -/

/-- C5: whenever `Template` returns a non-nil error, the string it returns is empty, whatever
the workspace reader, the parser, the merge step and the serializer do. -/
theorem Template_error_out_empty {σ E : Type} (a : Collaborators σ E) (wlName : String) (s : σ)
    (h : (Template a wlName s).err ≠ none) : (Template a wlName s).out = "" := by
  cases hdir : a.ReadAddonsDir wlName s with
  | mk r s1 =>
    cases r with
    | error e => rw [Template_of_dir_error a wlName s s1 e hdir]
    | ok listing =>
      rw [Template_of_dir_ok a wlName s s1 listing hdir] at h ⊢
      cases hl : templateLoop a wlName (filterYAMLfiles a.windows listing)
          (newCFNTemplate "merged") s1 [.ReadAddonsDir wlName] with
      | returned o => exact (templateLoop_returned a wlName _ _ _ _ o hl).1
      | finished m s2 tr =>
        rw [hl] at h
        cases hm : a.Marshal m with
        | error e => rw [afterLoop_error a m s2 tr e hm]
        | ok out => simp [afterLoop_ok a m s2 tr out hm] at h

theorem Template_error_out_empty_witness :
    (Template (demo worldMalformed) "api" 0).err ≠ none
      ∧ (Template (demo worldMalformed) "api" 0).out = "" :=
  ⟨by decide, Template_error_out_empty (demo worldMalformed) "api" 0 (by decide)⟩

/-- C3: `Template` returns the empty string together with an `ErrAddonsDirNotExist` error if
and only if `ReadAddonsDir` fails; the error carries the workload's name in `WlName` and the
listing error in `ParentErr`; and in this case the call of `ReadAddonsDir` is the only call
made: no fragment is read, parsed or merged. -/
theorem Template_ErrAddonsDirNotExist_iff {σ E : Type} (a : Collaborators σ E)
    (wlName : String) (s : σ) :
    (∀ w p, ((Template a wlName s).out = ""
          ∧ (Template a wlName s).err = some (.ErrAddonsDirNotExist w p))
        ↔ (w = wlName ∧ (a.ReadAddonsDir wlName s).1 = .error p))
      ∧ (∀ p, (a.ReadAddonsDir wlName s).1 = .error p →
          (Template a wlName s).trace = [.ReadAddonsDir wlName]
            ∧ (Template a wlName s).state = (a.ReadAddonsDir wlName s).2) := by
  cases hdir : a.ReadAddonsDir wlName s with
  | mk r s1 =>
    cases r with
    | error e =>
      rw [Template_of_dir_error a wlName s s1 e hdir]
      refine ⟨?_, ?_⟩
      · intro w p
        constructor
        · rintro ⟨_, h⟩
          simp only [Option.some.injEq, TemplateError.ErrAddonsDirNotExist.injEq] at h
          exact ⟨h.1.symm, by rw [h.2]⟩
        · rintro ⟨h1, h2⟩
          simp only [Except.error.injEq] at h2
          subst h1 h2
          exact ⟨rfl, rfl⟩
      · intro p _
        exact ⟨rfl, rfl⟩
    | ok listing =>
      refine ⟨?_, ?_⟩
      · intro w p
        constructor
        · rintro ⟨_, h⟩
          exfalso
          rw [Template_of_dir_ok a wlName s s1 listing hdir] at h
          cases hl : templateLoop a wlName (filterYAMLfiles a.windows listing)
              (newCFNTemplate "merged") s1 [.ReadAddonsDir wlName] with
          | returned o =>
            rw [hl] at h
            exact (templateLoop_returned a wlName _ _ _ _ o hl).2.1 w p h
          | finished m s2 tr =>
            rw [hl] at h
            cases hm : a.Marshal m with
            | error e => simp [afterLoop_error a m s2 tr e hm] at h
            | ok out => simp [afterLoop_ok a m s2 tr out hm] at h
        · rintro ⟨_, h2⟩
          simp at h2
      · intro p h
        simp at h

theorem Template_ErrAddonsDirNotExist_iff_witness :
    (Template (demo worldNoDir) "api" 0).out = ""
      ∧ (Template (demo worldNoDir) "api" 0).err
          = some (.ErrAddonsDirNotExist "api" (.notExist "copilot/api/addons"))
      ∧ (Template (demo worldNoDir) "api" 0).trace = [.ReadAddonsDir "api"] :=
  ⟨(((Template_ErrAddonsDirNotExist_iff (demo worldNoDir) "api" 0).1 "api"
        (.notExist "copilot/api/addons")).2 ⟨rfl, rfl⟩).1,
   (((Template_ErrAddonsDirNotExist_iff (demo worldNoDir) "api" 0).1 "api"
        (.notExist "copilot/api/addons")).2 ⟨rfl, rfl⟩).2,
   ((Template_ErrAddonsDirNotExist_iff (demo worldNoDir) "api" 0).2
        (.notExist "copilot/api/addons") rfl).1⟩

/-- C8: when the listing succeeds and contains no name ending in `.yaml` or `.yml`
(the empty listing included) and serialization succeeds, `Template` reads no fragment
and returns, without error, the serialization of the fresh accumulator
`newCFNTemplate("merged")`, whose sections are all empty. -/
theorem Template_no_fragment {σ E : Type} (a : Collaborators σ E) (wlName : String) (s s1 : σ)
    (listing : List String) (text : Bytes)
    (hdir : a.ReadAddonsDir wlName s = (.ok listing, s1))
    (hnone : ∀ f ∈ listing, ¬ (".yaml".data <:+ f.data ∨ ".yml".data <:+ f.data))
    (hser : a.Marshal (newCFNTemplate "merged") = .ok text) :
    Template a wlName s
        = { out := text, err := none, state := s1, trace := [.ReadAddonsDir wlName, .Marshal] }
      ∧ readNames (Template a wlName s).trace = []
      ∧ (∀ sec, (newCFNTemplate "merged").get sec = []) := by
  have hsel : filterYAMLfiles a.windows listing = [] := by
    rw [filterYAMLfiles_eq_filter, List.filter_eq_nil_iff]
    intro f hf
    have := hnone f hf
    simpa [endsInYAML] using this
  have e : Template a wlName s
      = { out := text, err := none, state := s1, trace := [.ReadAddonsDir wlName, .Marshal] } := by
    rw [Template_of_dir_ok a wlName s s1 listing hdir, hsel]
    simp [templateLoop, afterLoop, hser]
  refine ⟨e, ?_, ?_⟩
  · rw [e]
    rfl
  · intro sec
    cases sec <;> rfl

theorem Template_no_fragment_witness :
    Template (demo worldNoYAML) "api" 0
        = { out := "Resources: ", err := none, state := 1,
            trace := [.ReadAddonsDir "api", .Marshal] } :=
  (Template_no_fragment (demo worldNoYAML) "api" 0 1 ["notes.txt", "a.json", "a.YAML"]
    "Resources: " rfl (by decide) rfl).1

theorem Template_after_processed {σ E : Type} (a : Collaborators σ E) (wlName : String)
    (s s1 s2 : σ) (listing pre rest : List String) (outs : List Bytes)
    (docs : List cfnTemplate) (acc : cfnTemplate)
    (hdir : a.ReadAddonsDir wlName s = (.ok listing, s1))
    (hsel : filterYAMLfiles a.windows listing = pre ++ rest)
    (hread : readAll a wlName pre s1 = (some outs, s2))
    (hparse : parseAll a pre outs = some docs)
    (hmerge : foldMerge a (newCFNTemplate "merged") docs = .ok acc) :
    Template a wlName s
      = afterLoop a (templateLoop a wlName rest acc s2
          (.ReadAddonsDir wlName :: pre.flatMap (iterationEvents wlName))) := by
  rw [Template_of_dir_ok a wlName s s1 listing hdir, hsel,
    templateLoop_append a wlName pre rest _ acc s1 s2 _ outs docs hread hparse hmerge]
  rfl

/-- C6: if `ReadAddon` fails for a selected fragment `f` and every selected fragment before
`f` was read, parsed and merged without error, `Template` returns the empty string and an
error with message `read addon <f> under <workload name>: <cause>` that wraps the read error;
the last call made is the failed `ReadAddon`, so no fragment after `f` is read. -/
theorem Template_read_error {σ E : Type} (a : Collaborators σ E) (wlName : String)
    (s s1 s2 s3 : σ) (listing pre post : List String) (f : String) (outs : List Bytes)
    (docs : List cfnTemplate) (acc : cfnTemplate) (e : E)
    (hdir : a.ReadAddonsDir wlName s = (.ok listing, s1))
    (hsel : filterYAMLfiles a.windows listing = pre ++ f :: post)
    (hread : readAll a wlName pre s1 = (some outs, s2))
    (hparse : parseAll a pre outs = some docs)
    (hmerge : foldMerge a (newCFNTemplate "merged") docs = .ok acc)
    (hf : a.ReadAddon wlName f s2 = (.error e, s3)) :
    Template a wlName s
        = { out := ""
            err := some (.wrapError
              ("read addon " ++ f ++ " under " ++ wlName ++ ": " ++ a.Error e) e)
            state := s3
            trace := .ReadAddonsDir wlName :: pre.flatMap (iterationEvents wlName)
              ++ [.ReadAddon wlName f] }
      ∧ readNames (Template a wlName s).trace = pre ++ [f]
      ∧ mergeNames (Template a wlName s).trace = pre := by
  have e1 := Template_after_processed a wlName s s1 s2 listing pre (f :: post) outs docs acc
    hdir hsel hread hparse hmerge
  rw [templateLoop, hf] at e1
  simp only [afterLoop] at e1
  refine ⟨e1, ?_, ?_⟩
  · rw [e1]
    simp [readNames, readNames_append, readNames_iterations]
  · rw [e1]
    simp [mergeNames, mergeNames_append, mergeNames_iterations]

theorem Template_read_error_witness :
    Template (demo worldMissing) "api" 0
      = { out := ""
          err := some (.wrapError
            "read addon b.yaml under api: open b.yaml: no such file or directory"
            (.notExist "b.yaml"))
          state := 3
          trace := [.ReadAddonsDir "api", .ReadAddon "api" "a.yaml", .Unmarshal "a.yaml",
            .merge "a.yaml", .ReadAddon "api" "b.yaml"] } :=
  (Template_read_error (demo worldMissing) "api" 0 1 2 3 ["a.yaml", "b.yaml", "c.yaml"]
    ["a.yaml"] ["c.yaml"] "b.yaml" ["B"]
    [{ newCFNTemplate "a.yaml" with Resources := [("B", .scalar "x")] }]
    { newCFNTemplate "merged" with Resources := [("B", .scalar "x")] }
    (.notExist "b.yaml") rfl (by decide) rfl rfl rfl rfl).1

/-- C7: if parsing the bytes of a selected fragment `f` fails and every selected fragment
before `f` was read, parsed and merged without error, `Template` returns the empty string
and an error with message `unmarshal addon <f> under <workload name>: <cause>` that wraps the
parser's error; the last call made is the failed `Unmarshal`, so `f` is not merged into the
accumulator and no fragment after `f` is read. -/
theorem Template_unmarshal_error {σ E : Type} (a : Collaborators σ E) (wlName : String)
    (s s1 s2 s3 : σ) (listing pre post : List String) (f : String) (outs : List Bytes)
    (docs : List cfnTemplate) (acc : cfnTemplate) (out : Bytes) (e : E)
    (hdir : a.ReadAddonsDir wlName s = (.ok listing, s1))
    (hsel : filterYAMLfiles a.windows listing = pre ++ f :: post)
    (hread : readAll a wlName pre s1 = (some outs, s2))
    (hparse : parseAll a pre outs = some docs)
    (hmerge : foldMerge a (newCFNTemplate "merged") docs = .ok acc)
    (hf : a.ReadAddon wlName f s2 = (.ok out, s3))
    (hu : a.Unmarshal out (newCFNTemplate f) = .error e) :
    Template a wlName s
        = { out := ""
            err := some (.wrapError
              ("unmarshal addon " ++ f ++ " under " ++ wlName ++ ": " ++ a.Error e) e)
            state := s3
            trace := .ReadAddonsDir wlName :: pre.flatMap (iterationEvents wlName)
              ++ [.ReadAddon wlName f, .Unmarshal f] }
      ∧ readNames (Template a wlName s).trace = pre ++ [f]
      ∧ mergeNames (Template a wlName s).trace = pre := by
  have e1 := Template_after_processed a wlName s s1 s2 listing pre (f :: post) outs docs acc
    hdir hsel hread hparse hmerge
  rw [templateLoop, hf] at e1
  simp only [hu, afterLoop] at e1
  refine ⟨e1, ?_, ?_⟩
  · rw [e1]
    simp [readNames, readNames_append, readNames_iterations]
  · rw [e1]
    simp [mergeNames, mergeNames_append, mergeNames_iterations]

theorem Template_unmarshal_error_witness :
    Template (demo worldMalformed) "api" 0
      = { out := ""
          err := some (.wrapError "unmarshal addon b.yaml under api: yaml: malformed" .badYAML)
          state := 3
          trace := [.ReadAddonsDir "api", .ReadAddon "api" "a.yaml", .Unmarshal "a.yaml",
            .merge "a.yaml", .ReadAddon "api" "b.yaml", .Unmarshal "b.yaml"] } :=
  (Template_unmarshal_error (demo worldMalformed) "api" 0 1 2 3 ["a.yaml", "b.yaml", "c.yaml"]
    ["a.yaml"] ["c.yaml"] "b.yaml" ["B"]
    [{ newCFNTemplate "a.yaml" with Resources := [("B", .scalar "x")] }]
    { newCFNTemplate "merged" with Resources := [("B", .scalar "x")] }
    "!" .badYAML rfl (by decide) rfl rfl rfl rfl rfl).1

/-- C10: if merging a selected fragment `f` into the accumulator returns an error and every
selected fragment before `f` was read, parsed and merged without error, `Template` returns
the empty string and exactly that error, not wrapped in any message; the last call made is
the failed `merge`, so no fragment after `f` is read. -/
theorem Template_merge_error {σ E : Type} (a : Collaborators σ E) (wlName : String)
    (s s1 s2 s3 : σ) (listing pre post : List String) (f : String) (outs : List Bytes)
    (docs : List cfnTemplate) (acc tpl : cfnTemplate) (out : Bytes) (e : E)
    (hdir : a.ReadAddonsDir wlName s = (.ok listing, s1))
    (hsel : filterYAMLfiles a.windows listing = pre ++ f :: post)
    (hread : readAll a wlName pre s1 = (some outs, s2))
    (hparse : parseAll a pre outs = some docs)
    (hmerge : foldMerge a (newCFNTemplate "merged") docs = .ok acc)
    (hf : a.ReadAddon wlName f s2 = (.ok out, s3))
    (hu : a.Unmarshal out (newCFNTemplate f) = .ok tpl)
    (hm : a.merge acc tpl = .error e) :
    Template a wlName s
        = { out := ""
            err := some (.passed e)
            state := s3
            trace := .ReadAddonsDir wlName :: pre.flatMap (iterationEvents wlName)
              ++ [.ReadAddon wlName f, .Unmarshal f, .merge f] }
      ∧ readNames (Template a wlName s).trace = pre ++ [f]
      ∧ mergeNames (Template a wlName s).trace = pre ++ [f] := by
  have e1 := Template_after_processed a wlName s s1 s2 listing pre (f :: post) outs docs acc
    hdir hsel hread hparse hmerge
  rw [templateLoop, hf] at e1
  simp only [hu, hm, afterLoop] at e1
  refine ⟨e1, ?_, ?_⟩
  · rw [e1]
    simp [readNames, readNames_append, readNames_iterations]
  · rw [e1]
    simp [mergeNames, mergeNames_append, mergeNames_iterations]

theorem Template_merge_error_witness :
    Template (demo worldClash) "api" 0
      = { out := ""
          err := some (.passed (.collision
            { sectionName := .Resources, key := "B", fragment := "b.yaml" }))
          state := 3
          trace := [.ReadAddonsDir "api", .ReadAddon "api" "a.yaml", .Unmarshal "a.yaml",
            .merge "a.yaml", .ReadAddon "api" "b.yaml", .Unmarshal "b.yaml",
            .merge "b.yaml"] } :=
  (Template_merge_error (demo worldClash) "api" 0 1 2 3 ["a.yaml", "b.yaml", "c.yaml"]
    ["a.yaml"] ["c.yaml"] "b.yaml" ["B"]
    [{ newCFNTemplate "a.yaml" with Resources := [("B", .scalar "x")] }]
    { newCFNTemplate "merged" with Resources := [("B", .scalar "x")] }
    { newCFNTemplate "b.yaml" with Resources := [("B", .scalar "x")] }
    "B" (.collision { sectionName := .Resources, key := "B", fragment := "b.yaml" })
    rfl (by decide) rfl rfl rfl rfl rfl rfl).1

/-- C9 does not hold as stated: in `worldNoMarshal` the listing succeeds and the only
selected fragment is read, parsed and merged without error, yet `Template` returns a non-nil
error (the serializer's, wrapped) and the empty string. -/
theorem Template_success_counterexample :
    (demo worldNoMarshal).ReadAddonsDir "api" 0 = (.ok ["a.yaml"], 1)
      ∧ readAll (demo worldNoMarshal) "api" (filterYAMLfiles false ["a.yaml"]) 1
          = (some ["B"], 2)
      ∧ parseAll (demo worldNoMarshal) (filterYAMLfiles false ["a.yaml"]) ["B"]
          = some [{ newCFNTemplate "a.yaml" with Resources := [("B", .scalar "x")] }]
      ∧ foldMerge (demo worldNoMarshal) (newCFNTemplate "merged")
            [{ newCFNTemplate "a.yaml" with Resources := [("B", .scalar "x")] }]
          = .ok { newCFNTemplate "merged" with Resources := [("B", .scalar "x")] }
      ∧ (Template (demo worldNoMarshal) "api" 0).out = ""
      ∧ (Template (demo worldNoMarshal) "api" 0).err
          = some (.wrapError "marshal merged addons template: yaml: cannot marshal"
              .cannotMarshal) :=
  ⟨rfl, rfl, rfl, rfl, rfl, rfl⟩

/-- C9, amended: when listing succeeds, every selected fragment is read, parsed and merged
without error, and serialization succeeds, `Template` returns with a nil error the
serialization of the accumulator obtained by folding `merge` from left to right over the
parsed documents of `filterYAMLfiles(listing)`, starting from `newCFNTemplate("merged")`;
the calls made are, for each selected fragment in order, one `ReadAddon`, one `Unmarshal`
into a document created with its file name, and one `merge`, followed by `Marshal`. -/
theorem Template_success {σ E : Type} (a : Collaborators σ E) (wlName : String)
    (s s1 s2 : σ) (listing : List String) (outs : List Bytes)
    (docs : List cfnTemplate) (acc : cfnTemplate) (text : Bytes)
    (hdir : a.ReadAddonsDir wlName s = (.ok listing, s1))
    (hread : readAll a wlName (filterYAMLfiles a.windows listing) s1 = (some outs, s2))
    (hparse : parseAll a (filterYAMLfiles a.windows listing) outs = some docs)
    (hmerge : foldMerge a (newCFNTemplate "merged") docs = .ok acc)
    (hser : a.Marshal acc = .ok text) :
    Template a wlName s
        = { out := text
            err := none
            state := s2
            trace := .ReadAddonsDir wlName
              :: (filterYAMLfiles a.windows listing).flatMap (iterationEvents wlName)
              ++ [.Marshal] }
      ∧ readNames (Template a wlName s).trace = filterYAMLfiles a.windows listing
      ∧ mergeNames (Template a wlName s).trace = filterYAMLfiles a.windows listing := by
  have e1 := Template_after_processed a wlName s s1 s2 listing
    (filterYAMLfiles a.windows listing) [] outs docs acc hdir (by simp) hread hparse hmerge
  rw [templateLoop, afterLoop_ok a acc s2 _ text hser] at e1
  refine ⟨e1, ?_, ?_⟩
  · rw [e1]
    simp [readNames, readNames_append, readNames_iterations]
  · rw [e1]
    simp [mergeNames, mergeNames_append, mergeNames_iterations]

theorem Template_success_witness :
    Template (demo worldMixed) "api" 0
      = { out := "Resources: Q,B"
          err := none
          state := 3
          trace := [.ReadAddonsDir "api", .ReadAddon "api" "b.yml", .Unmarshal "b.yml",
            .merge "b.yml", .ReadAddon "api" "a.yaml", .Unmarshal "a.yaml",
            .merge "a.yaml", .Marshal] } :=
  (Template_success (demo worldMixed) "api" 0 1 3 ["b.yml", "notes.txt", "a.yaml", "a.json"]
    ["Q", "B"]
    [{ newCFNTemplate "b.yml" with Resources := [("Q", .scalar "x")] },
     { newCFNTemplate "a.yaml" with Resources := [("B", .scalar "x")] }]
    { newCFNTemplate "merged" with Resources := [("Q", .scalar "x"), ("B", .scalar "x")] }
    "Resources: Q,B" rfl rfl rfl rfl rfl).1

/-- C2 does not hold as stated: the listing `["b.yaml", "a.yaml"]` is processed as `b.yaml`
then `a.yaml`, which is not ascending, and the permuted listing `["a.yaml", "b.yaml"]` is
processed in a different order. -/
theorem Template_order_counterexample :
    (demo worldTwo).ReadAddonsDir "api" 0 = (.ok ["b.yaml", "a.yaml"], 1)
      ∧ readNames (Template (demo worldTwo) "api" 0).trace = ["b.yaml", "a.yaml"]
      ∧ mergeNames (Template (demo worldTwo) "api" 0).trace = ["b.yaml", "a.yaml"]
      ∧ ¬ ascending (readNames (Template (demo worldTwo) "api" 0).trace)
      ∧ (demo worldTwoSorted).ReadAddonsDir "api" 0 = (.ok ["a.yaml", "b.yaml"], 1)
      ∧ List.Perm ["b.yaml", "a.yaml"] ["a.yaml", "b.yaml"]
      ∧ readNames (Template (demo worldTwoSorted) "api" 0).trace
          ≠ readNames (Template (demo worldTwo) "api" 0).trace :=
  ⟨rfl, by decide, by decide, by decide, rfl, by decide, by decide⟩

/-- C2, amended: for every listing returned by `ReadAddonsDir`, the fragments that `Template`
reads and merges are processed in the order of `filterYAMLfiles(listing)`, which is the
listing's own relative order restricted to the recognized names (no sorting takes place):
the names read and the names merged are initial segments of it, and all of it when
`Template` returns a nil error; so the processing order is ascending whenever the listing
is. -/
theorem Template_order {σ E : Type} (a : Collaborators σ E) (wlName : String) (s s1 : σ)
    (listing : List String) (hdir : a.ReadAddonsDir wlName s = (.ok listing, s1)) :
    readNames (Template a wlName s).trace <+: filterYAMLfiles a.windows listing
      ∧ mergeNames (Template a wlName s).trace <+: filterYAMLfiles a.windows listing
      ∧ ((Template a wlName s).err = none →
          readNames (Template a wlName s).trace = filterYAMLfiles a.windows listing
            ∧ mergeNames (Template a wlName s).trace = filterYAMLfiles a.windows listing)
      ∧ List.Sublist (filterYAMLfiles a.windows listing) listing
      ∧ (ascending listing →
          ascending (readNames (Template a wlName s).trace)
            ∧ ascending (mergeNames (Template a wlName s).trace)) := by
  have hsub : List.Sublist (filterYAMLfiles a.windows listing) listing := by
    rw [filterYAMLfiles_eq_filter]
    exact List.filter_sublist _
  obtain ⟨⟨p, hp, hp2⟩, ⟨q, hq, hq2⟩, hfin⟩ :=
    templateLoop_names a wlName (filterYAMLfiles a.windows listing) (newCFNTemplate "merged") s1
      [.ReadAddonsDir wlName]
  have tr_eq : readNames (Template a wlName s).trace
        = readNames (templateLoop a wlName (filterYAMLfiles a.windows listing)
            (newCFNTemplate "merged") s1 [.ReadAddonsDir wlName]).trace
      ∧ mergeNames (Template a wlName s).trace
        = mergeNames (templateLoop a wlName (filterYAMLfiles a.windows listing)
            (newCFNTemplate "merged") s1 [.ReadAddonsDir wlName]).trace := by
    rw [Template_of_dir_ok a wlName s s1 listing hdir]
    cases hl : templateLoop a wlName (filterYAMLfiles a.windows listing)
        (newCFNTemplate "merged") s1 [.ReadAddonsDir wlName] with
    | returned o => exact ⟨rfl, rfl⟩
    | finished m s2 tr =>
      cases hm : a.Marshal m with
      | error e =>
        rw [afterLoop_error a m s2 tr e hm]
        simp [LoopResult.trace, readNames_append, mergeNames_append, readNames, mergeNames]
      | ok out =>
        rw [afterLoop_ok a m s2 tr out hm]
        simp [LoopResult.trace, readNames_append, mergeNames_append, readNames, mergeNames]
  have hr : readNames (Template a wlName s).trace = p := by
    rw [tr_eq.1, hp2]
    simp [readNames]
  have hm : mergeNames (Template a wlName s).trace = q := by
    rw [tr_eq.2, hq2]
    simp [mergeNames]
  refine ⟨hr ▸ hp, hm ▸ hq, ?_, hsub, ?_⟩
  · intro herr
    rw [Template_of_dir_ok a wlName s s1 listing hdir] at herr
    cases hl : templateLoop a wlName (filterYAMLfiles a.windows listing)
        (newCFNTemplate "merged") s1 [.ReadAddonsDir wlName] with
    | returned o =>
      rw [hl] at herr
      exact absurd herr (templateLoop_returned a wlName _ _ _ _ o hl).2.2
    | finished m s2 tr =>
      obtain ⟨h1, h2⟩ := hfin m s2 tr hl
      rw [tr_eq.1, tr_eq.2, hl]
      simp only [LoopResult.trace]
      rw [h1, h2]
      simp [readNames, mergeNames]
  · intro hasc
    have hsel : ascending (filterYAMLfiles a.windows listing) := List.Pairwise.sublist hsub hasc
    rw [hr, hm]
    exact ⟨List.Pairwise.sublist hp.sublist hsel, List.Pairwise.sublist hq.sublist hsel⟩

theorem Template_order_witness :
    readNames (Template (demo worldMixed) "api" 0).trace
      <+: filterYAMLfiles false ["b.yml", "notes.txt", "a.yaml", "a.json"] :=
  (Template_order (demo worldMixed) "api" 0 1 ["b.yml", "notes.txt", "a.yaml", "a.json"] rfl).1

/-! ## Lemmas on the merge step of the specification -/

theorem mergeSection_ok (sec : cfnSection) (fr : String) (acc inc r : List (String × Value))
    (h : mergeSection sec fr acc inc = .ok r) :
    r = acc ++ inc ∧ ∀ k ∈ keys inc, k ∉ keys acc := by
  induction inc generalizing acc with
  | nil =>
    simp only [mergeSection, Except.ok.injEq] at h
    simp [h, keys]
  | cons kv rest ih =>
    obtain ⟨k, v⟩ := kv
    unfold mergeSection at h
    split at h
    · cases h
    · rename_i hk
      obtain ⟨h1, h2⟩ := ih _ h
      refine ⟨by simp [h1], ?_⟩
      intro k' hk'
      simp only [keys, List.map_cons, List.mem_cons] at hk'
      rcases hk' with rfl | hk'
      · exact hk
      · have := h2 k' hk'
        simp only [keys, List.map_append, List.mem_append, not_or] at this
        exact this.1

theorem mergeSection_error (sec : cfnSection) (fr : String) (acc inc : List (String × Value))
    (c : Collision) (h : mergeSection sec fr acc inc = .error c) :
    c.sectionName = sec ∧ c.fragment = fr ∧ c.key ∈ keys inc := by
  induction inc generalizing acc with
  | nil => simp [mergeSection] at h
  | cons kv rest ih =>
    obtain ⟨k, v⟩ := kv
    unfold mergeSection at h
    split at h
    · simp only [Except.error.injEq] at h
      subst h
      simp [keys]
    · obtain ⟨h1, h2, h3⟩ := ih _ h
      exact ⟨h1, h2, by simp only [keys, List.map_cons, List.mem_cons]; exact Or.inr h3⟩

theorem mergeSection_only (sec : cfnSection) (fr : String) (k : String)
    (acc inc : List (String × Value))
    (hnodup : (keys inc).Nodup) (hacc : k ∈ keys acc) (hinc : k ∈ keys inc)
    (honly : ∀ k2 ∈ keys inc, k2 ∈ keys acc → k2 = k) :
    mergeSection sec fr acc inc = .error { sectionName := sec, key := k, fragment := fr } := by
  induction inc generalizing acc with
  | nil => simp [keys] at hinc
  | cons kv rest ih =>
    obtain ⟨k1, v⟩ := kv
    simp only [keys, List.map_cons, List.nodup_cons] at hnodup
    unfold mergeSection
    split
    · rename_i hk
      have := honly k1 (by simp [keys]) hk
      rw [this]
    · rename_i hk
      have hne : k ≠ k1 := fun e => hk (e ▸ hacc)
      apply ih
      · exact hnodup.2
      · simp only [keys, List.map_append, List.mem_append]
        exact Or.inl hacc
      · simp only [keys, List.map_cons, List.mem_cons] at hinc
        rcases hinc with h | h
        · exact absurd h hne
        · exact h
      · intro k2 hk2 hk2acc
        simp only [keys, List.map_append, List.mem_append, List.map_cons, List.map_nil,
          List.mem_singleton] at hk2acc
        rcases hk2acc with h | h
        · exact honly k2 (by simp only [keys, List.map_cons, List.mem_cons]; exact Or.inr hk2) h
        · exact absurd (h ▸ hk2) hnodup.1

theorem specMerge_ok (acc d r : cfnTemplate) (h : specMerge acc d = .ok r) :
    r.name = acc.name
      ∧ ∀ sec, mergeSection sec d.name (acc.get sec) (d.get sec) = .ok (r.get sec) := by
  unfold specMerge at h
  split at h
  · cases h
  split at h
  · cases h
  split at h
  · cases h
  split at h
  · cases h
  split at h
  · cases h
  split at h
  · cases h
  simp only [Except.ok.injEq] at h
  subst h
  refine ⟨rfl, ?_⟩
  intro sec
  cases sec <;> simp only [cfnTemplate.get] <;> assumption

theorem specMerge_error (acc d : cfnTemplate) (c : Collision) (h : specMerge acc d = .error c) :
    ∃ sec, mergeSection sec d.name (acc.get sec) (d.get sec) = .error c := by
  unfold specMerge at h
  split at h
  · rename_i h1
    simp only [Except.error.injEq] at h
    exact ⟨.Parameters, h ▸ h1⟩
  split at h
  · rename_i h1
    simp only [Except.error.injEq] at h
    exact ⟨.Mappings, h ▸ h1⟩
  split at h
  · rename_i h1
    simp only [Except.error.injEq] at h
    exact ⟨.Conditions, h ▸ h1⟩
  split at h
  · rename_i h1
    simp only [Except.error.injEq] at h
    exact ⟨.Resources, h ▸ h1⟩
  split at h
  · rename_i h1
    simp only [Except.error.injEq] at h
    exact ⟨.Outputs, h ▸ h1⟩
  split at h
  · rename_i h1
    simp only [Except.error.injEq] at h
    exact ⟨.Metadata, h ▸ h1⟩
  cases h

theorem specMerge_exact (acc d : cfnTemplate) (sec : cfnSection) (c : Collision)
    (hother : ∀ sec2, sec2 ≠ sec →
      ∃ x, mergeSection sec2 d.name (acc.get sec2) (d.get sec2) = .ok x)
    (hsec : mergeSection sec d.name (acc.get sec) (d.get sec) = .error c) :
    specMerge acc d = .error c := by
  cases sec
  · simp only [cfnTemplate.get] at hsec
    simp [specMerge, hsec]
  · obtain ⟨x1, h1⟩ := hother .Parameters (by decide)
    simp only [cfnTemplate.get] at hsec h1
    simp [specMerge, hsec, h1]
  · obtain ⟨x1, h1⟩ := hother .Parameters (by decide)
    obtain ⟨x2, h2⟩ := hother .Mappings (by decide)
    simp only [cfnTemplate.get] at hsec h1 h2
    simp [specMerge, hsec, h1, h2]
  · obtain ⟨x1, h1⟩ := hother .Parameters (by decide)
    obtain ⟨x2, h2⟩ := hother .Mappings (by decide)
    obtain ⟨x3, h3⟩ := hother .Conditions (by decide)
    simp only [cfnTemplate.get] at hsec h1 h2 h3
    simp [specMerge, hsec, h1, h2, h3]
  · obtain ⟨x1, h1⟩ := hother .Parameters (by decide)
    obtain ⟨x2, h2⟩ := hother .Mappings (by decide)
    obtain ⟨x3, h3⟩ := hother .Conditions (by decide)
    obtain ⟨x4, h4⟩ := hother .Resources (by decide)
    simp only [cfnTemplate.get] at hsec h1 h2 h3 h4
    simp [specMerge, hsec, h1, h2, h3, h4]
  · obtain ⟨x1, h1⟩ := hother .Parameters (by decide)
    obtain ⟨x2, h2⟩ := hother .Mappings (by decide)
    obtain ⟨x3, h3⟩ := hother .Conditions (by decide)
    obtain ⟨x4, h4⟩ := hother .Resources (by decide)
    obtain ⟨x5, h5⟩ := hother .Outputs (by decide)
    simp only [cfnTemplate.get] at hsec h1 h2 h3 h4 h5
    simp [specMerge, hsec, h1, h2, h3, h4, h5]

theorem mergeSection_disjoint (sec : cfnSection) (fr : String) (acc inc : List (String × Value))
    (hnodup : (keys inc).Nodup) (hdis : ∀ k ∈ keys inc, k ∉ keys acc) :
    mergeSection sec fr acc inc = .ok (acc ++ inc) := by
  induction inc generalizing acc with
  | nil => simp [mergeSection]
  | cons kv rest ih =>
    obtain ⟨k, v⟩ := kv
    simp only [keys, List.map_cons, List.nodup_cons] at hnodup
    have hk : k ∉ keys acc := hdis k (by simp [keys])
    unfold mergeSection
    rw [if_neg hk, ih (acc ++ [(k, v)]) hnodup.2]
    · simp
    · intro k2 hk2
      simp only [keys, List.map_append, List.mem_append, List.map_cons, List.map_nil,
        List.mem_singleton, not_or]
      refine ⟨hdis k2 (by simp only [keys, List.map_cons, List.mem_cons]; exact Or.inr hk2), ?_⟩
      intro e
      exact hnodup.1 (e ▸ hk2)

theorem specMerge_error_names (acc d : cfnTemplate) (c : Collision)
    (h : specMerge acc d = .error c) :
    c.fragment = d.name ∧ c.key ∈ keys (d.get c.sectionName) := by
  obtain ⟨sec, hsec⟩ := specMerge_error acc d c h
  obtain ⟨h1, h2, h3⟩ := mergeSection_error _ _ _ _ _ hsec
  exact ⟨h2, h1 ▸ h3⟩

theorem specMerge_collides (acc d : cfnTemplate) (sec : cfnSection) (k : String)
    (hacc : k ∈ keys (acc.get sec)) (hd : k ∈ keys (d.get sec)) :
    ∃ c, specMerge acc d = .error c := by
  cases h : specMerge acc d with
  | error c => exact ⟨c, rfl⟩
  | ok r =>
    exfalso
    have := (specMerge_ok acc d r h).2 sec
    exact (mergeSection_ok _ _ _ _ _ this).2 k hd hacc

theorem specMerge_only (acc d : cfnTemplate) (sec : cfnSection) (k : String)
    (hnodup : ∀ sec2, (keys (d.get sec2)).Nodup)
    (hacc : k ∈ keys (acc.get sec)) (hd : k ∈ keys (d.get sec))
    (honly : ∀ sec2 k2, k2 ∈ keys (acc.get sec2) → k2 ∈ keys (d.get sec2) →
      sec2 = sec ∧ k2 = k) :
    specMerge acc d = .error { sectionName := sec, key := k, fragment := d.name } := by
  apply specMerge_exact acc d sec
  · intro sec2 hne
    refine ⟨_, mergeSection_disjoint sec2 d.name _ _ (hnodup sec2) ?_⟩
    intro k2 hk2 hk2acc
    exact hne (honly sec2 k2 hk2acc hk2).1
  · exact mergeSection_only sec d.name k _ _ (hnodup sec) hacc hd
      (fun k2 hk2 hk2acc => (honly sec k2 hk2acc hk2).2)

theorem mergeOfSpec_ok {E : Type} (inj : Collision → E) (acc d r : cfnTemplate)
    (h : mergeOfSpec inj acc d = .ok r) : specMerge acc d = .ok r := by
  unfold mergeOfSpec at h
  split at h
  · cases h
  · rename_i h1
    simp only [Except.ok.injEq] at h
    rw [h1, h]

theorem mergeOfSpec_error {E : Type} (inj : Collision → E) (acc d : cfnTemplate) (e : E)
    (h : mergeOfSpec inj acc d = .error e) : ∃ c, specMerge acc d = .error c ∧ e = inj c := by
  unfold mergeOfSpec at h
  split at h
  · rename_i c h1
    simp only [Except.error.injEq] at h
    exact ⟨c, h1, h.symm⟩
  · cases h

theorem foldMerge_ok_keys {σ E : Type} (a : Collaborators σ E) (inj : Collision → E)
    (hspec : a.merge = mergeOfSpec inj) (acc r : cfnTemplate) (docs : List cfnTemplate)
    (h : foldMerge a acc docs = .ok r) (sec : cfnSection) (k : String) :
    k ∈ keys (r.get sec) ↔ (k ∈ keys (acc.get sec) ∨ ∃ d ∈ docs, k ∈ keys (d.get sec)) := by
  induction docs generalizing acc with
  | nil =>
    simp only [foldMerge, Except.ok.injEq] at h
    subst h
    simp
  | cons d ds ih =>
    unfold foldMerge at h
    split at h
    · cases h
    · rename_i acc1 hm
      rw [hspec] at hm
      have h1 := (specMerge_ok acc d acc1 (mergeOfSpec_ok inj acc d acc1 hm)).2 sec
      have h2 := (mergeSection_ok _ _ _ _ _ h1).1
      rw [ih acc1 h, h2]
      simp only [keys, List.map_append, List.mem_append, List.mem_cons, exists_eq_or_imp]
      tauto

theorem foldMerge_error {σ E : Type} (a : Collaborators σ E) (inj : Collision → E)
    (hspec : a.merge = mergeOfSpec inj) (acc : cfnTemplate) (docs : List cfnTemplate) (e : E)
    (h : foldMerge a acc docs = .error e) :
    ∃ c d, e = inj c ∧ d ∈ docs ∧ c.fragment = d.name ∧ c.key ∈ keys (d.get c.sectionName) := by
  induction docs generalizing acc with
  | nil => simp [foldMerge] at h
  | cons d ds ih =>
    unfold foldMerge at h
    split at h
    · rename_i e1 hm
      simp only [Except.error.injEq] at h
      subst h
      rw [hspec] at hm
      obtain ⟨c, hc, he⟩ := mergeOfSpec_error inj acc d e1 hm
      obtain ⟨h1, h2⟩ := specMerge_error_names acc d c hc
      exact ⟨c, d, he, by simp, h1, h2⟩
    · rename_i acc1 hm
      obtain ⟨c, d1, h1, h2, h3⟩ := ih acc1 h
      exact ⟨c, d1, h1, List.mem_cons_of_mem _ h2, h3⟩

theorem parseAll_names {σ E : Type} (a : Collaborators σ E)
    (hname : ∀ out f d, a.Unmarshal out (newCFNTemplate f) = .ok d → d.name = f)
    (fs : List String) (outs : List Bytes) (docs : List cfnTemplate)
    (h : parseAll a fs outs = some docs) : docs.map (fun d => d.name) = fs := by
  induction fs generalizing outs docs with
  | nil =>
    cases outs with
    | nil =>
      simp only [parseAll, Option.some.injEq] at h
      subst h
      rfl
    | cons o os => simp [parseAll] at h
  | cons f fs ih =>
    cases outs with
    | nil => simp [parseAll] at h
    | cons o os =>
      unfold parseAll at h
      split at h
      · cases h
      · rename_i tpl hu
        split at h
        · cases h
        · rename_i tpls hp
          simp only [Option.some.injEq] at h
          subst h
          simp [hname o f tpl hu, ih os tpls hp]

theorem templateLoop_step_ok {σ E : Type} (a : Collaborators σ E) (wlName : String)
    (f : String) (rest : List String) (acc acc1 tpl : cfnTemplate) (s s1 : σ) (tr : List Event)
    (out : Bytes)
    (hr : a.ReadAddon wlName f s = (.ok out, s1))
    (hu : a.Unmarshal out (newCFNTemplate f) = .ok tpl)
    (hm : a.merge acc tpl = .ok acc1) :
    templateLoop a wlName (f :: rest) acc s tr
      = templateLoop a wlName rest acc1 s1 (tr ++ iterationEvents wlName f) := by
  rw [templateLoop, hr]
  simp only [hu, hm, iterationEvents]

theorem templateLoop_step_merge_error {σ E : Type} (a : Collaborators σ E) (wlName : String)
    (f : String) (rest : List String) (acc tpl : cfnTemplate) (s s1 : σ) (tr : List Event)
    (out : Bytes) (e : E)
    (hr : a.ReadAddon wlName f s = (.ok out, s1))
    (hu : a.Unmarshal out (newCFNTemplate f) = .ok tpl)
    (hm : a.merge acc tpl = .error e) :
    templateLoop a wlName (f :: rest) acc s tr
      = .returned { out := "", err := some (.passed e), state := s1,
                    trace := tr ++ iterationEvents wlName f } := by
  rw [templateLoop, hr]
  simp only [hu, hm, iterationEvents]

theorem templateLoop_merge_fails {σ E : Type} (a : Collaborators σ E) (wlName : String)
    (pre rest : List String) (acc : cfnTemplate) (s s1 : σ) (tr : List Event)
    (outs : List Bytes) (docs : List cfnTemplate) (e : E)
    (hread : readAll a wlName pre s = (some outs, s1))
    (hparse : parseAll a pre outs = some docs)
    (hmerge : foldMerge a acc docs = .error e) :
    ∃ s2 tr2, templateLoop a wlName (pre ++ rest) acc s tr
      = .returned { out := "", err := some (.passed e), state := s2, trace := tr2 } := by
  induction pre generalizing acc s tr outs docs with
  | nil =>
    simp only [readAll, Prod.mk.injEq, Option.some.injEq] at hread
    obtain ⟨h1, _⟩ := hread
    subst h1
    simp only [parseAll, Option.some.injEq] at hparse
    subst hparse
    simp [foldMerge] at hmerge
  | cons f fs ih =>
    unfold readAll at hread
    rw [List.cons_append]
    cases hr : a.ReadAddon wlName f s with
    | mk r s2 =>
      rw [hr] at hread
      cases r with
      | error e => simp at hread
      | ok out =>
        simp only at hread
        cases hra : readAll a wlName fs s2 with
        | mk ro s3 =>
          rw [hra] at hread
          cases ro with
          | none => simp at hread
          | some outs1 =>
            simp only [Prod.mk.injEq, Option.some.injEq] at hread
            obtain ⟨h1, h2⟩ := hread
            subst h1 h2
            unfold parseAll at hparse
            cases hu : a.Unmarshal out (newCFNTemplate f) with
            | error e => simp [hu] at hparse
            | ok tpl =>
              simp only [hu] at hparse
              cases hpa : parseAll a fs outs1 with
              | none => simp [hpa] at hparse
              | some tpls =>
                simp only [hpa, Option.some.injEq] at hparse
                subst hparse
                unfold foldMerge at hmerge
                cases hm : a.merge acc tpl with
                | error e1 =>
                  simp only [hm, Except.error.injEq] at hmerge
                  subst hmerge
                  exact ⟨_, _, templateLoop_step_merge_error a wlName f _ acc tpl s s2 tr out e1
                    hr hu hm⟩
                | ok acc2 =>
                  simp only [hm] at hmerge
                  rw [templateLoop_step_ok a wlName f _ acc acc2 tpl s s2 tr out hr hu hm]
                  exact ih acc2 s2 _ outs1 tpls hra hpa hmerge

theorem newCFNTemplate_get (name : String) (sec : cfnSection) :
    (newCFNTemplate name).get sec = [] := by
  cases sec <;> rfl

theorem mergeOfSpec_of_error {E : Type} (inj : Collision → E) (acc d : cfnTemplate)
    (c : Collision) (h : specMerge acc d = .error c) :
    mergeOfSpec inj acc d = .error (inj c) := by
  simp only [mergeOfSpec, h]

/-- C4 does not hold as stated.  In `worldClashTwice` the documents of `a.yaml` and `b.yaml`
both declare the keys `X` and `Y` in `Resources`; `Template` fails with the collision on
`X`, so its error does not name the shared key `Y`.  In `worldClashUnread` the documents of
`b.yaml` and `c.yaml` both declare `B` in `Resources`, but `a.yaml`, processed first, cannot
be read, and `Template` fails with the wrapped read error, which is no collision error. -/
theorem Template_collision_counterexample :
    (demo worldClashTwice).ReadAddonsDir "api" 0 = (.ok ["a.yaml", "b.yaml"], 1)
      ∧ parseAll (demo worldClashTwice) ["a.yaml", "b.yaml"] ["XY", "XY"]
          = some [{ newCFNTemplate "a.yaml" with
                      Resources := [("X", .scalar "x"), ("Y", .scalar "x")] },
                  { newCFNTemplate "b.yaml" with
                      Resources := [("X", .scalar "x"), ("Y", .scalar "x")] }]
      ∧ (Template (demo worldClashTwice) "api" 0).err
          = some (.passed (.collision
              { sectionName := .Resources, key := "X", fragment := "b.yaml" }))
      ∧ (∀ frag, (Template (demo worldClashTwice) "api" 0).err
          ≠ some (.passed (.collision
              { sectionName := .Resources, key := "Y", fragment := frag })))
      ∧ (demo worldClashUnread).ReadAddonsDir "api" 0
          = (.ok ["a.yaml", "b.yaml", "c.yaml"], 1)
      ∧ parseAll (demo worldClashUnread) ["b.yaml", "c.yaml"] ["B", "B"]
          = some [{ newCFNTemplate "b.yaml" with Resources := [("B", .scalar "x")] },
                  { newCFNTemplate "c.yaml" with Resources := [("B", .scalar "x")] }]
      ∧ (Template (demo worldClashUnread) "api" 0).err
          = some (.wrapError
              "read addon a.yaml under api: open a.yaml: no such file or directory"
              (.notExist "a.yaml")) := by
  refine ⟨rfl, rfl, rfl, ?_, rfl, rfl, rfl⟩
  intro frag h
  have e : (Template (demo worldClashTwice) "api" 0).err
      = some (.passed (.collision
          { sectionName := .Resources, key := "X", fragment := "b.yaml" })) := rfl
  rw [e] at h
  simp only [Option.some.injEq, TemplateError.passed.injEq, DemoError.collision.injEq,
    Collision.mk.injEq] at h
  exact absurd h.2.1 (by decide)

/-- C4, amended (with the merge step of the specification, and a parser that leaves the
document's name as `newCFNTemplate` set it): let `g` be a selected fragment such that every
selected fragment before it and `g` itself are read and parsed without error, and let the
document of `g` declare a key `k` in a section `sec` in which the document of an earlier
fragment declares `k` too, whichever of the two files that is.  Then `Template` returns the
empty string and a collision error, not wrapped, naming a fragment processed up to `g`
and a key that this fragment's document declares in the named section.  If moreover the
fragments before `g` merge without error, no section of `g`'s document repeats a key, and
`k` in `sec` is the only key that `g`'s document shares with an earlier one, the collision
names exactly `sec`, `k` and `g`. -/
theorem Template_collision {σ E : Type} (a : Collaborators σ E)
    (collisionError : Collision → E) (wlName : String) (s s1 s2 s3 : σ)
    (listing pre post : List String) (g : String) (outs : List Bytes) (out : Bytes)
    (docs : List cfnTemplate) (df dg : cfnTemplate) (sec : cfnSection) (k : String)
    (hspec : a.merge = mergeOfSpec collisionError)
    (hname : ∀ out f d, a.Unmarshal out (newCFNTemplate f) = .ok d → d.name = f)
    (hdir : a.ReadAddonsDir wlName s = (.ok listing, s1))
    (hsel : filterYAMLfiles a.windows listing = pre ++ g :: post)
    (hread : readAll a wlName pre s1 = (some outs, s2))
    (hparse : parseAll a pre outs = some docs)
    (hg : a.ReadAddon wlName g s2 = (.ok out, s3))
    (hu : a.Unmarshal out (newCFNTemplate g) = .ok dg)
    (hdf : df ∈ docs)
    (hk1 : k ∈ keys (df.get sec))
    (hk2 : k ∈ keys (dg.get sec)) :
    (∃ c, (Template a wlName s).out = ""
        ∧ (Template a wlName s).err = some (.passed (collisionError c))
        ∧ c.fragment ∈ pre ++ [g]
        ∧ ∃ d ∈ docs ++ [dg], d.name = c.fragment ∧ c.key ∈ keys (d.get c.sectionName))
      ∧ ((∃ acc, foldMerge a (newCFNTemplate "merged") docs = .ok acc) →
          (∀ sec2, (keys (dg.get sec2)).Nodup) →
          (∀ d ∈ docs, ∀ sec2 k2, k2 ∈ keys (d.get sec2) → k2 ∈ keys (dg.get sec2) →
            sec2 = sec ∧ k2 = k) →
          (Template a wlName s).err
            = some (.passed (collisionError { sectionName := sec, key := k, fragment := g }))) := by
  have hgname : dg.name = g := hname out g dg hu
  have hnames := parseAll_names a hname pre outs docs hparse
  have hacc_keys : ∀ acc, foldMerge a (newCFNTemplate "merged") docs = .ok acc →
      ∀ sec2 k2, k2 ∈ keys (acc.get sec2) ↔ ∃ d ∈ docs, k2 ∈ keys (d.get sec2) := by
    intro acc hacc sec2 k2
    rw [foldMerge_ok_keys a collisionError hspec _ acc docs hacc sec2 k2, newCFNTemplate_get]
    simp [keys]
  have hfail : ∀ acc c, foldMerge a (newCFNTemplate "merged") docs = .ok acc →
      specMerge acc dg = .error c →
      Template a wlName s
        = { out := "", err := some (.passed (collisionError c)), state := s3,
            trace := (.ReadAddonsDir wlName :: pre.flatMap (iterationEvents wlName))
              ++ iterationEvents wlName g } := by
    intro acc c hacc hc
    have hm : a.merge acc dg = .error (collisionError c) := by
      rw [hspec]
      exact mergeOfSpec_of_error collisionError acc dg c hc
    rw [Template_after_processed a wlName s s1 s2 listing pre (g :: post) outs docs acc
      hdir hsel hread hparse hacc,
      templateLoop_step_merge_error a wlName g post acc dg s2 s3 _ out _ hg hu hm]
    rfl
  refine ⟨?_, ?_⟩
  · cases hfold : foldMerge a (newCFNTemplate "merged") docs with
    | error e =>
      obtain ⟨c, d, he, hd, hfr, hkey⟩ :=
        foldMerge_error a collisionError hspec _ docs e hfold
      obtain ⟨st, tr2, hloop⟩ := templateLoop_merge_fails a wlName pre (g :: post)
        (newCFNTemplate "merged") s1 s2 [.ReadAddonsDir wlName] outs docs e hread hparse hfold
      have hT : Template a wlName s
          = { out := "", err := some (.passed e), state := st, trace := tr2 } := by
        rw [Template_of_dir_ok a wlName s s1 listing hdir, hsel, hloop]
        rfl
      refine ⟨c, by rw [hT], by rw [hT, he], ?_, d, ?_, hfr.symm, hkey⟩
      · rw [hfr, ← hnames]
        exact List.mem_append_left _ (List.mem_map_of_mem _ hd)
      · exact List.mem_append_left _ hd
    | ok acc =>
      have hk : k ∈ keys (acc.get sec) := (hacc_keys acc hfold sec k).mpr ⟨df, hdf, hk1⟩
      obtain ⟨c, hc⟩ := specMerge_collides acc dg sec k hk hk2
      obtain ⟨hfr, hkey⟩ := specMerge_error_names acc dg c hc
      have hT := hfail acc c hfold hc
      refine ⟨c, by rw [hT], by rw [hT], ?_, dg, by simp, hfr.symm, hkey⟩
      rw [hfr, hgname]
      simp
  · rintro ⟨acc, hacc⟩ hnodup honly
    have hk : k ∈ keys (acc.get sec) := (hacc_keys acc hacc sec k).mpr ⟨df, hdf, hk1⟩
    have hc := specMerge_only acc dg sec k hnodup hk hk2 (by
      intro sec2 k2 h1 h2
      obtain ⟨d, hd, hdk⟩ := (hacc_keys acc hacc sec2 k2).mp h1
      exact honly d hd sec2 k2 hdk h2)
    rw [hfail acc _ hacc hc, hgname]

theorem Template_collision_witness :
    (Template (demo worldClash) "api" 0).err
        = some (.passed (.collision
            { sectionName := .Resources, key := "B", fragment := "b.yaml" }))
      ∧ (Template (demo worldClashSwapped) "api" 0).err
        = some (.passed (.collision
            { sectionName := .Resources, key := "B", fragment := "a.yaml" })) :=
  ⟨(Template_collision (demo worldClash) DemoError.collision "api" 0 1 2 3
      ["a.yaml", "b.yaml", "c.yaml"] ["a.yaml"] ["c.yaml"] "b.yaml" ["B"] "B"
      [{ newCFNTemplate "a.yaml" with Resources := [("B", .scalar "x")] }]
      { newCFNTemplate "a.yaml" with Resources := [("B", .scalar "x")] }
      { newCFNTemplate "b.yaml" with Resources := [("B", .scalar "x")] }
      .Resources "B" rfl
      (by
        intro out f d h
        simp only [demo] at h
        split at h
        · cases h
        · simp only [Except.ok.injEq] at h
          rw [← h]
          rfl)
      rfl (by decide) rfl rfl rfl rfl (by simp) (by decide) (by decide)).2
      ⟨_, rfl⟩
      (by intro sec2; cases sec2 <;> decide)
      (by
        intro d hd sec2 k2 h1 h2
        simp only [List.mem_singleton] at hd
        subst hd
        cases sec2 <;> simp [cfnTemplate.get, newCFNTemplate, keys] at h1 h2 ⊢
        exact h1),
   (Template_collision (demo worldClashSwapped) DemoError.collision "api" 0 1 2 3
      ["b.yaml", "a.yaml", "c.yaml"] ["b.yaml"] ["c.yaml"] "a.yaml" ["B"] "B"
      [{ newCFNTemplate "b.yaml" with Resources := [("B", .scalar "x")] }]
      { newCFNTemplate "b.yaml" with Resources := [("B", .scalar "x")] }
      { newCFNTemplate "a.yaml" with Resources := [("B", .scalar "x")] }
      .Resources "B" rfl
      (by
        intro out f d h
        simp only [demo] at h
        split at h
        · cases h
        · simp only [Except.ok.injEq] at h
          rw [← h]
          rfl)
      rfl (by decide) rfl rfl rfl rfl (by simp) (by decide) (by decide)).2
      ⟨_, rfl⟩
      (by intro sec2; cases sec2 <;> decide)
      (by
        intro d hd sec2 k2 h1 h2
        simp only [List.mem_singleton] at hd
        subst hd
        cases sec2 <;> simp [cfnTemplate.get, newCFNTemplate, keys] at h1 h2 ⊢
        exact h1)⟩

end Addon
